import Mathlib

/-!
Shallow embedding of the measurement and scoring engine of `proxy-speedtest`
(`src/main.rs`): the latency sampler loop, the latency reducer
(`test_node_latency`, lines 88-166), the throughput probe (`test_node_speed`,
lines 168-229), the per-node evaluator and the ranking comparators in `main`
(lines 327-413).  Network effects are abstracted as oracles; `f64` values are
modelled by the type `Fl` below (exact rationals plus the infinity marker the
code uses as a failure tag and NaN, so that the defensive `partial_cmp`
handling can be stated); a `partial_cmp(..).unwrap()` that would panic is
modelled by `Option` with `none` for the panic.
-/

namespace ProxySpeedtest

/-- Model of the `f64` values the program manipulates: a finite value (exact
rational), positive infinity (the failure marker pushed by the sampling loop,
`f64::INFINITY`), or NaN. -/
inductive Fl where
  | num (q : ℚ)
  | inf
  | nan
deriving DecidableEq, Repr

/-- `f64::is_infinite` (the code only ever constructs positive infinity). -/
def Fl.isInfinite : Fl → Bool
  | .inf => true
  | _ => false

/-- A value is finite when it is an actual number (not infinity, not NaN). -/
def Fl.isFinite : Fl → Bool
  | .num _ => true
  | _ => false

/-- Projection of a finite value to its rational; 0 on non-finite values. -/
def Fl.toQ : Fl → ℚ
  | .num q => q
  | _ => 0

/-- `f64::partial_cmp`: `none` iff either operand is NaN, otherwise the usual
order with infinity greatest. -/
def Fl.partialCmp : Fl → Fl → Option Ordering
  | .nan, _ => none
  | _, .nan => none
  | .num a, .num b => some (if a < b then .lt else if a = b then .eq else .gt)
  | .num _, .inf => some .lt
  | .inf, .num _ => some .gt
  | .inf, .inf => some .eq

/-- `f64` addition restricted to the values occurring here (no negative
infinity is ever constructed, so `inf + x = inf`). -/
def Fl.add : Fl → Fl → Fl
  | .nan, _ => .nan
  | _, .nan => .nan
  | .inf, _ => .inf
  | _, .inf => .inf
  | .num a, .num b => .num (a + b)

/-- Division of an `f64` by a (positive) length cast to `f64`. -/
def Fl.divNat : Fl → ℕ → Fl
  | .num a, n => .num (a / (n : ℚ))
  | .inf, _ => .inf
  | .nan, _ => .nan

/-- One latency attempt as observed through the proxied HTTP request: either a
successful round trip with its wall-clock duration in milliseconds, or a
failure (non-success HTTP status, transport error, or timeout). -/
inductive AttemptOutcome where
  | success (d : ℚ)
  | failure
deriving DecidableEq, Repr

/-- The sampling loop of `test_node_latency` (lines 113-140): up to
`remaining` further attempts starting at index `i`; a success pushes the
measured duration, a failure pushes `f64::INFINITY` and breaks. -/
def sampleFrom (outcomes : ℕ → AttemptOutcome) : ℕ → ℕ → List Fl
  | _, 0 => []
  | i, n + 1 =>
    match outcomes i with
    | .success d => .num d :: sampleFrom outcomes (i + 1) n
    | .failure => [.inf]

/-- The `latencies` vector accumulated by `test_node_latency` for a budget of
`test_count` attempts, with the attempt outcomes given by an oracle. -/
def sampleLatencies (outcomes : ℕ → AttemptOutcome) (test_count : ℕ) : List Fl :=
  sampleFrom outcomes 0 test_count

/-- Attempt oracle built from a finite plan (further attempts fail). -/
def outcomesOf (plan : List AttemptOutcome) : ℕ → AttemptOutcome :=
  fun i => plan.getD i .failure

/-- `LatencyResult` (lines 36-47). Statistics are `f64` values. -/
inductive LatencyResult where
  | success (median average minimum maximum : Fl)
  | unstable (valid_count total_count : ℕ)
  | allFailed
  | sessionError (reason : String)
deriving DecidableEq, Repr

/-- `SpeedResult` (lines 49-53): speed in Mbps, or a failure reason. -/
inductive SpeedResult where
  | success (mbps : Fl)
  | failed (reason : String)
deriving DecidableEq, Repr

/-- `NodeResult` (lines 55-61). `speed` is `none` when throughput testing was
not requested for the run. -/
structure NodeResult where
  tag : String
  port : ℕ
  latency : LatencyResult
  speed : Option SpeedResult
deriving DecidableEq, Repr

/-- One step of the sort comparator `a.partial_cmp(b).unwrap()` used by
`sort_unstable_by` (line 156): inserting `x` into an already sorted list,
`none` modelling the panic of `unwrap` on an incomparable pair. -/
def insertFl (x : Fl) : List Fl → Option (List Fl)
  | [] => some [x]
  | y :: ys =>
    match x.partialCmp y with
    | none => none
    | some .gt => (insertFl x ys).map (fun rest => y :: rest)
    | some _ => some (x :: y :: ys)

/-- The sort of the valid latencies (line 156), as comparator-driven insertion
sort; `none` models a comparator panic. On NaN-free input this produces the
same ascending sequence as `sort_unstable_by` does. -/
def sortFl : List Fl → Option (List Fl)
  | [] => some []
  | x :: xs => (sortFl xs).bind (insertFl x)

/-- The non-infinite entries kept for statistics (lines 146-149). -/
def validLatencies (latencies : List Fl) : List Fl :=
  latencies.filter (fun l => !l.isInfinite)

/-- The reduction of the accumulated `latencies` vector to a `LatencyResult`
(`test_node_latency`, lines 142-165): `AllFailed` when empty or all failure
markers, `Unstable(valid_count, test_count)` when fewer than 3 valid samples,
otherwise sort ascending and report median (index `len/2`), average
(sum / len), minimum (first) and maximum (last). `none` models a comparator
panic inside the sort. -/
def reduceLatency (latencies : List Fl) (test_count : ℕ) : Option LatencyResult :=
  if latencies.isEmpty || latencies.all (fun l => l.isInfinite) then
    some .allFailed
  else if (validLatencies latencies).length < 3 then
    some (.unstable (validLatencies latencies).length test_count)
  else
    match sortFl (validLatencies latencies) with
    | none => none
    | some sorted =>
      some (.success (sorted.getD (sorted.length / 2) (.num 0))
        ((sorted.foldl Fl.add (.num 0)).divNat sorted.length)
        (sorted.getD 0 (.num 0))
        (sorted.getD (sorted.length - 1) (.num 0)))

/-- Whether proxy/client construction succeeds for a probe session, and with
which error message otherwise (lines 92-106, 171-185). -/
inductive SessionSetup where
  | ok
  | proxyError (e : String)
  | clientError (e : String)
deriving DecidableEq, Repr

/-- `test_node_latency` (lines 88-166) end to end: a construction failure
yields `SessionError` without any attempt; otherwise the sampled latencies are
reduced. -/
def test_node_latency (setup : SessionSetup) (outcomes : ℕ → AttemptOutcome)
    (test_count : ℕ) : Option LatencyResult :=
  match setup with
  | .proxyError e => some (.sessionError ("Failed to create proxy: " ++ e))
  | .clientError e => some (.sessionError ("Failed to create client: " ++ e))
  | .ok => reduceLatency (sampleLatencies outcomes test_count) test_count

/-- Outcome of the single throughput transfer (lines 199-228), as observed at
the network boundary: the body fully received with its byte count and the
wall-clock elapsed seconds, or one of the failure shapes. -/
inductive TransferOutcome where
  | success (bytes : ℕ) (elapsed : ℚ)
  | httpError (status : String)
  | requestError (e : String)
  | readError (e : String)
  | timeout
deriving DecidableEq, Repr

/-- The rate computation of `test_node_speed` (lines 207-210):
`(bytes * 8) / 1_000_000 / elapsed_seconds`, decimal megabits per second. -/
def computeRate (bytes : ℕ) (seconds : ℚ) : ℚ :=
  ((bytes : ℚ) * 8) / 1000000 / seconds

/-- Collapse of the transfer outcome into `SpeedResult` (lines 201-228). -/
def reduceTransfer : TransferOutcome → SpeedResult
  | .success bytes elapsed => .success (.num (computeRate bytes elapsed))
  | .httpError s => .failed ("HTTP Error: " ++ s)
  | .requestError e => .failed ("Request error: " ++ e)
  | .readError e => .failed ("Failed to read response: " ++ e)
  | .timeout => .failed "Timeout"

/-- Result of one `test_node_speed` call together with whether a network
request was issued and, when it was, the exact byte count put in the request
URL (`__down?bytes=...`). -/
structure SpeedProbe where
  result : SpeedResult
  networkCalled : Bool
  requestBytes : Option ℕ
deriving DecidableEq, Repr

/-- `test_node_speed` (lines 168-229): construction failures and the size
guard (`size_mb <= 1024`, line 187) return `Failed` before any request; an
admissible size issues one `GET` with `size_mb * 1024 * 1024` bytes requested
(`u32` arithmetic, hence the reduction modulo `2^32`) and collapses the
transfer outcome. -/
def test_node_speed (setup : SessionSetup) (net : ℕ → TransferOutcome)
    (size_mb : ℕ) : SpeedProbe :=
  match setup with
  | .proxyError e =>
    { result := .failed ("Failed to create proxy: " ++ e),
      networkCalled := false, requestBytes := none }
  | .clientError e =>
    { result := .failed ("Failed to create client: " ++ e),
      networkCalled := false, requestBytes := none }
  | .ok =>
    if size_mb ≤ 1024 then
      let bytes := (size_mb * 1024 * 1024) % 2 ^ 32
      { result := reduceTransfer (net bytes),
        networkCalled := true, requestBytes := some bytes }
    else
      { result := .failed "Size too large (>1GB not supported)",
        networkCalled := false, requestBytes := none }

/-- Whether a node has a successful throughput measurement. -/
def hasSpeedSuccess (n : NodeResult) : Bool :=
  match n.speed with
  | some (.success _) => true
  | _ => false

/-- Whether a node has a `Success` latency result. -/
def hasLatencySuccess (n : NodeResult) : Bool :=
  match n.latency with
  | .success _ _ _ _ => true
  | _ => false

/-- The latency comparator used by the ranking sort (lines 393-401 and
404-412): ascending median between two `Success` latencies
(`partial_cmp(..).unwrap_or(Equal)`), `Success` before anything else, all
other pairs equal. -/
def latencyCmp (a b : NodeResult) : Ordering :=
  match a.latency, b.latency with
  | .success ma _ _ _, .success mb _ _ _ => (ma.partialCmp mb).getD .eq
  | .success _ _ _ _, _ => .lt
  | _, .success _ _ _ _ => .gt
  | _, _ => .eq

/-- The comparator used when throughput testing was enabled (lines 387-402):
descending successful rate first (`sb.partial_cmp(sa)`), a `Success` speed
before anything else, and the latency comparator as fallback. -/
def speedCmp (a b : NodeResult) : Ordering :=
  match a.speed, b.speed with
  | some (.success sa), some (.success sb) => (sb.partialCmp sa).getD .eq
  | some (.success _), _ => .lt
  | _, some (.success _) => .gt
  | _, _ => latencyCmp a b

/-- One node evaluation together with whether the throughput probe was run. -/
structure EvalTrace where
  result : NodeResult
  speedProbeAttempted : Bool
deriving DecidableEq, Repr

/-- The per-node body of the main loop (lines 327-383): run the latency test,
then — whenever a download size was supplied, whatever the latency result —
run the throughput test, and assemble the `NodeResult`. The two probes are
abstracted by per-port oracles. -/
def evaluateNode (latencyOf : ℕ → LatencyResult) (speedOf : ℕ → SpeedResult)
    (download_mb : Option ℕ) (tag : String) (port : ℕ) : EvalTrace :=
  let latency := latencyOf port
  match download_mb with
  | some _ =>
    { result := { tag := tag, port := port, latency := latency,
                  speed := some (speedOf port) },
      speedProbeAttempted := true }
  | none =>
    { result := { tag := tag, port := port, latency := latency, speed := none },
      speedProbeAttempted := false }

/-- The whole main loop over the filtered node list: one `NodeResult` is
appended per node, unconditionally. -/
def evaluateAll (latencyOf : ℕ → LatencyResult) (speedOf : ℕ → SpeedResult)
    (download_mb : Option ℕ) (nodes : List (String × ℕ)) : List NodeResult :=
  nodes.map (fun tp => (evaluateNode latencyOf speedOf download_mb tp.1 tp.2).result)

/-- The ascending sort of the successful durations, written over the rational
values with Mathlib's insertion sort; the reducer's comparator-driven sort is
proved below to coincide with it on NaN-free input. -/
def sortQ (l : List ℚ) : List ℚ :=
  List.insertionSort (fun a b => a ≤ b) l

/-- The successful durations of an attempt vector, as rationals. -/
def validQ (l : List Fl) : List ℚ :=
  (validLatencies l).map Fl.toQ

/-! ## Basic facts about the sampler output -/

theorem sampleFrom_ne_nil (outcomes : ℕ → AttemptOutcome) (i n : ℕ) (h : 1 ≤ n) :
    sampleFrom outcomes i n ≠ [] := by
  match n, h with
  | n + 1, _ =>
    cases ho : outcomes i <;> simp [sampleFrom, ho]

theorem sampleFrom_shape (outcomes : ℕ → AttemptOutcome) (n : ℕ) :
    ∀ i, ∀ x ∈ sampleFrom outcomes i n, (∃ q, x = Fl.num q) ∨ x = Fl.inf := by
  induction n with
  | zero => intro i x hx; simp [sampleFrom] at hx
  | succ n ih =>
    intro i x hx
    cases ho : outcomes i with
    | success d =>
      rw [sampleFrom, ho] at hx
      rcases List.mem_cons.mp hx with rfl | hx
      · exact Or.inl ⟨d, rfl⟩
      · exact ih (i + 1) x hx
    | failure =>
      rw [sampleFrom, ho] at hx
      rcases List.mem_cons.mp hx with rfl | hx
      · exact Or.inr rfl
      · simp at hx

theorem sampleLatencies_ne_nil (outcomes : ℕ → AttemptOutcome) (tc : ℕ) (h : 1 ≤ tc) :
    sampleLatencies outcomes tc ≠ [] :=
  sampleFrom_ne_nil outcomes 0 tc h

theorem sampleLatencies_shape (outcomes : ℕ → AttemptOutcome) (tc : ℕ) :
    ∀ x ∈ sampleLatencies outcomes tc, (∃ q, x = Fl.num q) ∨ x = Fl.inf :=
  sampleFrom_shape outcomes tc 0

/-- When the attempts before the `k`-th all succeed and the `k`-th fails
(within the budget `n`), the loop records exactly `k` attempts. -/
theorem sampleFrom_length_first_fail (outcomes : ℕ → AttemptOutcome) :
    ∀ (n i k : ℕ), 1 ≤ k → k ≤ n →
      (∀ j, j < k - 1 → outcomes (i + j) ≠ .failure) →
      outcomes (i + (k - 1)) = .failure →
      (sampleFrom outcomes i n).length = k := by
  intro n
  induction n with
  | zero => intro i k hk1 hkn; omega
  | succ n ih =>
    intro i k hk1 hkn hsucc hfail
    rcases Nat.eq_or_lt_of_le hk1 with h1 | h2
    · obtain rfl : k = 1 := h1.symm
      simp only [Nat.sub_self, Nat.add_zero] at hfail
      simp [sampleFrom, hfail]
    · have hk2 : 2 ≤ k := h2
      cases ho : outcomes i with
      | failure =>
        exact absurd ho (by simpa using hsucc 0 (by omega))
      | success d =>
        rw [sampleFrom, ho]
        have hlen : (sampleFrom outcomes (i + 1) n).length = k - 1 := by
          refine ih (i + 1) (k - 1) (by omega) (by omega) ?_ ?_
          · intro j hj
            have := hsucc (j + 1) (by omega)
            simpa [Nat.add_assoc, Nat.add_comm 1 j] using this
          · have : i + 1 + (k - 1 - 1) = i + (k - 1) := by omega
            rw [this]; exact hfail
        simp [hlen]; omega

/-! ## Facts about the valid-latency filter -/

theorem validLatencies_eq_nil_iff (l : List Fl) :
    validLatencies l = [] ↔ l.all (fun x => x.isInfinite) = true := by
  simp only [validLatencies, List.filter_eq_nil_iff, List.all_eq_true,
    Bool.not_eq_true']
  constructor
  · intro h x hx
    have := h x hx
    simpa using this
  · intro h x hx
    simp [h x hx]

theorem validLatencies_shape {l : List Fl}
    (h : ∀ x ∈ l, (∃ q, x = Fl.num q) ∨ x = Fl.inf) :
    ∀ x ∈ validLatencies l, ∃ q, x = Fl.num q := by
  intro x hx
  rw [validLatencies, List.mem_filter] at hx
  rcases h x hx.1 with hq | rfl
  · exact hq
  · simp [Fl.isInfinite] at hx

theorem eq_map_toQ {m : List Fl} (h : ∀ x ∈ m, ∃ q, x = Fl.num q) :
    m = (m.map Fl.toQ).map Fl.num := by
  induction m with
  | nil => rfl
  | cons a as ih =>
    obtain ⟨q, rfl⟩ := h a (List.mem_cons_self a as)
    simp only [List.map_cons, Fl.toQ, List.cons.injEq, true_and]
    exact ih fun x hx => h x (List.mem_cons_of_mem _ hx)

/-! ## The reducer sort agrees with Mathlib's insertion sort on finite input -/

theorem insertFl_map_num (x : ℚ) (l : List ℚ) :
    insertFl (.num x) (l.map Fl.num)
      = some ((List.orderedInsert (fun a b => a ≤ b) x l).map Fl.num) := by
  induction l with
  | nil => rfl
  | cons y ys ih =>
    by_cases hlt : x < y
    · simp [insertFl, Fl.partialCmp, List.orderedInsert, hlt, hlt.le]
    · by_cases heq : x = y
      · simp [insertFl, Fl.partialCmp, List.orderedInsert, hlt, heq]
      · have hnle : ¬x ≤ y := by rw [le_iff_lt_or_eq]; tauto
        simp [insertFl, Fl.partialCmp, List.orderedInsert, hlt, heq, hnle, ih]

theorem sortFl_map_num (l : List ℚ) :
    sortFl (l.map Fl.num) = some ((sortQ l).map Fl.num) := by
  induction l with
  | nil => rfl
  | cons x xs ih =>
    simp only [List.map_cons, sortFl, ih, Option.bind_some, sortQ,
      List.insertionSort]
    exact insertFl_map_num x (List.insertionSort (fun a b => a ≤ b) xs)

/-! ## Branch analysis of the reducer -/

theorem reduceLatency_unstable_inv {l : List Fl} {tc v t : ℕ}
    (h : reduceLatency l tc = some (.unstable v t)) :
    v = (validLatencies l).length ∧ t = tc ∧ 0 < v ∧ v < 3 := by
  unfold reduceLatency at h
  split at h
  · simp at h
  · rename_i hcond
    split at h
    · rename_i h3
      obtain ⟨rfl, rfl⟩ : (validLatencies l).length = v ∧ tc = t := by
        simpa using h
      refine ⟨rfl, rfl, ?_, h3⟩
      rcases Nat.eq_zero_or_pos (validLatencies l).length with hz | hp
      · exfalso
        apply hcond
        rw [List.length_eq_zero] at hz
        rw [validLatencies_eq_nil_iff] at hz
        simp [hz]
      · exact hp
    · split at h <;> simp at h

theorem reduceLatency_unstable_of (l : List Fl) (tc : ℕ)
    (h0 : 0 < (validLatencies l).length) (h3 : (validLatencies l).length < 3) :
    reduceLatency l tc = some (.unstable (validLatencies l).length tc) := by
  have hne : ¬(l.isEmpty || l.all fun x => x.isInfinite) = true := by
    intro hcond
    rcases Bool.or_eq_true_iff.mp hcond with he | ha
    · rw [List.isEmpty_iff] at he
      subst he
      simp [validLatencies] at h0
    · rw [← validLatencies_eq_nil_iff] at ha
      rw [ha] at h0
      simp at h0
  rw [reduceLatency, if_neg hne, if_pos h3]

theorem reduceLatency_allFailed_iff (l : List Fl) (tc : ℕ) (hne : l ≠ []) :
    reduceLatency l tc = some .allFailed ↔ (validLatencies l).length = 0 := by
  constructor
  · intro h
    unfold reduceLatency at h
    split at h
    · rename_i hcond
      rcases Bool.or_eq_true_iff.mp hcond with he | ha
      · exact absurd (List.isEmpty_iff.mp he) hne
      · rw [← validLatencies_eq_nil_iff] at ha
        simp [ha]
    · split at h
      · simp at h
      · split at h <;> simp at h
  · intro h0
    rw [List.length_eq_zero, validLatencies_eq_nil_iff] at h0
    rw [reduceLatency, if_pos (by simp [h0])]

theorem reduceLatency_success_inv {l : List Fl} {tc : ℕ} {med avg mn mx : Fl}
    (h : reduceLatency l tc = some (.success med avg mn mx)) :
    3 ≤ (validLatencies l).length := by
  unfold reduceLatency at h
  split at h
  · simp at h
  · split at h
    · simp at h
    · omega

/-! ## The explicit form of a successful reduction -/

theorem getD_map_num (s : List ℚ) (i : ℕ) :
    (s.map Fl.num).getD i (.num 0) = .num (s.getD i 0) := by
  rcases Nat.lt_or_ge i s.length with h | h
  · rw [List.getD_eq_getElem _ _ (by simpa using h), List.getD_eq_getElem _ _ h]
    simp
  · rw [List.getD_eq_default _ _ (by simpa using h), List.getD_eq_default _ _ h]

theorem foldl_add_map_num (s : List ℚ) (a : ℚ) :
    (s.map Fl.num).foldl Fl.add (.num a) = .num (a + s.sum) := by
  induction s generalizing a with
  | nil => simp
  | cons x xs ih =>
    simp only [List.map_cons, List.foldl_cons, Fl.add, ih, List.sum_cons]
    rw [add_assoc]

theorem sortQ_length (l : List ℚ) : (sortQ l).length = l.length := by
  rw [sortQ, List.length_insertionSort]

theorem sortQ_sum (l : List ℚ) : (sortQ l).sum = l.sum :=
  (List.perm_insertionSort _ l).sum_eq

theorem sortQ_sorted (l : List ℚ) : (sortQ l).Sorted (fun a b => a ≤ b) :=
  List.sorted_insertionSort _ l

theorem reduceLatency_success_eq (l : List Fl) (tc : ℕ)
    (hshape : ∀ x ∈ l, (∃ q, x = Fl.num q) ∨ x = Fl.inf)
    (h3 : 3 ≤ (validLatencies l).length) :
    reduceLatency l tc = some (.success
      (.num ((sortQ (validQ l)).getD ((validQ l).length / 2) 0))
      (.num ((validQ l).sum / ((validQ l).length : ℚ)))
      (.num ((sortQ (validQ l)).getD 0 0))
      (.num ((sortQ (validQ l)).getD ((validQ l).length - 1) 0))) := by
  have hvshape := validLatencies_shape hshape
  have hvalid : validLatencies l = (validQ l).map Fl.num := by
    rw [validQ]; exact eq_map_toQ hvshape
  have hlenv : (validQ l).length = (validLatencies l).length := by
    rw [validQ, List.length_map]
  have hne : ¬(l.isEmpty || l.all fun x => x.isInfinite) = true := by
    intro hcond
    rcases Bool.or_eq_true_iff.mp hcond with he | ha
    · rw [List.isEmpty_iff] at he
      subst he
      simp [validLatencies] at h3
    · rw [← validLatencies_eq_nil_iff] at ha
      rw [ha] at h3
      simp at h3
  rw [reduceLatency, if_neg hne, if_neg (by omega), hvalid, sortFl_map_num]
  simp only [List.length_map, sortQ_length, getD_map_num, foldl_add_map_num,
    Fl.divNat, zero_add, sortQ_sum]

theorem map_num_shape (l : List ℚ) :
    ∀ x ∈ l.map Fl.num, (∃ q, x = Fl.num q) ∨ x = Fl.inf := by
  intro x hx
  rcases List.mem_map.mp hx with ⟨q, _, rfl⟩
  exact Or.inl ⟨q, rfl⟩

/-! ## Order facts about sorted rational lists -/

theorem sorted_getD_le {s : List ℚ} (hs : s.Sorted (fun a b => a ≤ b))
    {i j : ℕ} (hij : i ≤ j) (hj : j < s.length) :
    s.getD i 0 ≤ s.getD j 0 := by
  have hi : i < s.length := lt_of_le_of_lt hij hj
  rw [List.getD_eq_getElem _ _ hi, List.getD_eq_getElem _ _ hj]
  have := hs.rel_get_of_le (a := ⟨i, hi⟩) (b := ⟨j, hj⟩) (Fin.mk_le_mk.mpr hij)
  simpa using this

theorem sorted_bounds_of_mem {s : List ℚ} (hs : s.Sorted (fun a b => a ≤ b))
    {x : ℚ} (hx : x ∈ s) :
    s.getD 0 0 ≤ x ∧ x ≤ s.getD (s.length - 1) 0 := by
  obtain ⟨i, hi, rfl⟩ := List.mem_iff_getElem.mp hx
  constructor
  · have := sorted_getD_le hs (Nat.zero_le i) hi
    rwa [List.getD_eq_getElem _ _ hi] at this
  · have hlast : s.length - 1 < s.length := by omega
    have := sorted_getD_le hs (show i ≤ s.length - 1 by omega) hlast
    rwa [List.getD_eq_getElem _ _ hi] at this

theorem sum_div_length_le {s : List ℚ} {M : ℚ} (hne : s ≠ [])
    (hub : ∀ x ∈ s, x ≤ M) : s.sum / (s.length : ℚ) ≤ M := by
  have hlen : 0 < (s.length : ℚ) := by
    exact_mod_cast List.length_pos.mpr hne
  rw [div_le_iff₀ hlen]
  have := List.sum_le_card_nsmul s M hub
  rwa [nsmul_eq_mul, mul_comm] at this

theorem le_sum_div_length {s : List ℚ} {m : ℚ} (hne : s ≠ [])
    (hlb : ∀ x ∈ s, m ≤ x) : m ≤ s.sum / (s.length : ℚ) := by
  have hlen : 0 < (s.length : ℚ) := by
    exact_mod_cast List.length_pos.mpr hne
  rw [le_div_iff₀ hlen]
  have := List.card_nsmul_le_sum s m hlb
  rwa [nsmul_eq_mul, mul_comm] at this

theorem mem_sortQ {l : List ℚ} {x : ℚ} (hx : x ∈ sortQ l) : x ∈ l :=
  (List.perm_insertionSort _ l).mem_iff.mp hx

theorem mem_sortQ_of_mem {l : List ℚ} {x : ℚ} (hx : x ∈ l) : x ∈ sortQ l :=
  (List.perm_insertionSort _ l).mem_iff.mpr hx

/-! ## Lists of finite values pass the filter unchanged -/

theorem validLatencies_map_num (vals : List ℚ) :
    validLatencies (vals.map Fl.num) = vals.map Fl.num := by
  rw [validLatencies, List.filter_eq_self]
  intro a ha
  rcases List.mem_map.mp ha with ⟨q, _, rfl⟩
  simp [Fl.isInfinite]

theorem validQ_map_num (vals : List ℚ) : validQ (vals.map Fl.num) = vals := by
  rw [validQ, validLatencies_map_num, List.map_map]
  have : (Fl.toQ ∘ Fl.num) = id := by
    funext q
    simp [Fl.toQ, Function.comp]
  rw [this, List.map_id]

/-! ## Claim C1 -/

/-- C1 (amended): for a latency sampling run with a budget of 10 in which the
first failure occurs on the `k`-th attempt (`k ≤ 10`), exactly `k` attempts
are made, but an `Unstable` result carries `total_count = 10`, the configured
budget — not `k` — and hence never exceeds the budget. -/
theorem c1_unstable_total_count (outcomes : ℕ → AttemptOutcome) (k : ℕ)
    (hk1 : 1 ≤ k) (hk : k ≤ 10)
    (hsucc : ∀ j, j < k - 1 → outcomes j ≠ .failure)
    (hfail : outcomes (k - 1) = .failure) :
    (sampleLatencies outcomes 10).length = k
    ∧ ∀ v t, reduceLatency (sampleLatencies outcomes 10) 10
        = some (.unstable v t) → t = 10 ∧ t ≤ 10 := by
  constructor
  · refine sampleFrom_length_first_fail outcomes 10 0 k hk1 hk ?_ ?_
    · intro j hj
      simpa using hsucc j hj
    · simpa using hfail
  · intro v t h
    have := reduceLatency_unstable_inv h
    omega

/-- C1 witness: a run failing on the 2nd of 10 attempts makes 2 attempts and
any `Unstable` it reports has `total_count = 10`. -/
theorem c1_unstable_total_count_witness :
    (sampleLatencies (outcomesOf [.success 10, .failure]) 10).length = 2
    ∧ ∀ v t, reduceLatency (sampleLatencies (outcomesOf [.success 10, .failure]) 10) 10
        = some (.unstable v t) → t = 10 ∧ t ≤ 10 :=
  c1_unstable_total_count (outcomesOf [.success 10, .failure]) 2
    (by norm_num) (by norm_num)
    (fun j hj => by
      obtain rfl : j = 0 := by omega
      decide)
    (by decide)

/-- C1 counterexample: with a budget of 10, one success then a failure on the
2nd attempt (2 attempts actually made) yields `Unstable(1, 10)`: the recorded
`total_count` is 10, not the number of attempts actually made (2). -/
theorem c1_counterexample :
    (sampleLatencies (outcomesOf [.success 10, .failure]) 10).length = 2
    ∧ reduceLatency (sampleLatencies (outcomesOf [.success 10, .failure]) 10) 10
        = some (.unstable 1 10)
    ∧ (10 : ℕ) ≠ 2 := by decide

/-! ## Claim C2 -/

/-- C2 (amended): for at least 3 successful durations, the emitted `Success`
median is the element at zero-based index `⌊n/2⌋` of the ascending-sorted
successes — for even `n` the *upper* of the two middle elements, not the
lower: for `[10, 20, 30, 40]` the median is 30 (index 2), not 20. The
average, minimum and maximum are the mean, first and last respectively. -/
theorem c2_median_upper_middle (vals : List ℚ) (tc : ℕ) (h3 : 3 ≤ vals.length) :
    reduceLatency (vals.map Fl.num) tc = some (.success
      (.num ((sortQ vals).getD (vals.length / 2) 0))
      (.num (vals.sum / (vals.length : ℚ)))
      (.num ((sortQ vals).getD 0 0))
      (.num ((sortQ vals).getD (vals.length - 1) 0))) := by
  have heq := reduceLatency_success_eq (vals.map Fl.num) tc (map_num_shape vals)
    (by rw [validLatencies_map_num, List.length_map]; exact h3)
  rwa [validQ_map_num] at heq

/-- C2 witness: the spec's own example `[10, 20, 30, 40]` evaluated. -/
theorem c2_median_upper_middle_witness :
    reduceLatency ([10, 20, 30, 40].map Fl.num) 4 = some (.success
      (.num ((sortQ [10, 20, 30, 40]).getD ([10, 20, 30, 40].length / 2) 0))
      (.num (([10, 20, 30, 40] : List ℚ).sum / (([10, 20, 30, 40] : List ℚ).length : ℚ)))
      (.num ((sortQ [10, 20, 30, 40]).getD 0 0))
      (.num ((sortQ [10, 20, 30, 40]).getD ([10, 20, 30, 40].length - 1) 0))) :=
  c2_median_upper_middle [10, 20, 30, 40] 4 (by norm_num)

/-- C2 counterexample: for successes `[10, 20, 30, 40]` the code emits
median `30` — the element at index `⌊4/2⌋ = 2` is the upper middle element —
whereas the claim asserts the median is `20`. -/
theorem c2_counterexample :
    reduceLatency ([10, 20, 30, 40].map Fl.num) 4
      = some (.success (.num 30) (.num 25) (.num 10) (.num 40))
    ∧ (30 : ℚ) ≠ 20 := by
  constructor
  · rw [reduceLatency_success_eq ([10, 20, 30, 40].map Fl.num) 4
      (map_num_shape _) (by decide)]
    norm_num [validQ, validLatencies, Fl.isInfinite, Fl.toQ, sortQ,
      List.insertionSort, List.orderedInsert]
  · norm_num

/-! ## Claim C4 -/

/-- C4: for every attempt sequence sampled with budget `tc ≥ 1`, the reducer
returns `Unstable` iff the number of successful durations satisfies
`0 < valid_count < 3`, and `AllFailed` iff `valid_count = 0`; in particular an
`Unstable` situation is never classified `Success` or `AllFailed`. -/
theorem c4_classification (outcomes : ℕ → AttemptOutcome) (tc : ℕ)
    (htc : 1 ≤ tc) :
    ((∃ v t, reduceLatency (sampleLatencies outcomes tc) tc
        = some (.unstable v t))
      ↔ (0 < (validLatencies (sampleLatencies outcomes tc)).length
          ∧ (validLatencies (sampleLatencies outcomes tc)).length < 3))
    ∧ (reduceLatency (sampleLatencies outcomes tc) tc = some .allFailed
      ↔ (validLatencies (sampleLatencies outcomes tc)).length = 0) := by
  have hne := sampleLatencies_ne_nil outcomes tc htc
  refine ⟨⟨?_, ?_⟩, reduceLatency_allFailed_iff _ tc hne⟩
  · rintro ⟨v, t, h⟩
    have := reduceLatency_unstable_inv h
    omega
  · rintro ⟨h0, h3⟩
    exact ⟨_, _, reduceLatency_unstable_of _ tc h0 h3⟩

/-- C4 witness: the classification equivalences at a concrete two-attempt
plan (one success, then a failure) with budget 10. -/
theorem c4_classification_witness :
    ((∃ v t, reduceLatency (sampleLatencies (outcomesOf [.success 10, .failure]) 10) 10
        = some (.unstable v t))
      ↔ (0 < (validLatencies (sampleLatencies (outcomesOf [.success 10, .failure]) 10)).length
          ∧ (validLatencies (sampleLatencies (outcomesOf [.success 10, .failure]) 10)).length < 3))
    ∧ (reduceLatency (sampleLatencies (outcomesOf [.success 10, .failure]) 10) 10
        = some .allFailed
      ↔ (validLatencies (sampleLatencies (outcomesOf [.success 10, .failure]) 10)).length = 0) :=
  c4_classification (outcomesOf [.success 10, .failure]) 10 (by norm_num)

/-! ## Claim C5 -/

/-- C5: every `Success` emitted by the latency reducer over a sampled attempt
sequence satisfies `minimum ≤ median ≤ maximum` and
`minimum ≤ average ≤ maximum`; the average is the arithmetic mean of the
successful attempts only, and minimum/maximum are the first/last elements of
the ascending-sorted successes. -/
theorem c5_success_invariants (outcomes : ℕ → AttemptOutcome) (tc : ℕ)
    (med avg mn mx : Fl)
    (h : reduceLatency (sampleLatencies outcomes tc) tc
      = some (.success med avg mn mx)) :
    ∃ m a lo hi : ℚ,
      med = .num m ∧ avg = .num a ∧ mn = .num lo ∧ mx = .num hi ∧
      lo ≤ m ∧ m ≤ hi ∧ lo ≤ a ∧ a ≤ hi ∧
      a = (validQ (sampleLatencies outcomes tc)).sum
            / ((validQ (sampleLatencies outcomes tc)).length : ℚ) ∧
      m = (sortQ (validQ (sampleLatencies outcomes tc))).getD
            ((validQ (sampleLatencies outcomes tc)).length / 2) 0 ∧
      lo = (sortQ (validQ (sampleLatencies outcomes tc))).getD 0 0 ∧
      hi = (sortQ (validQ (sampleLatencies outcomes tc))).getD
            ((validQ (sampleLatencies outcomes tc)).length - 1) 0 := by
  have hshape := sampleLatencies_shape outcomes tc
  have h3 := reduceLatency_success_inv h
  rw [reduceLatency_success_eq (sampleLatencies outcomes tc) tc hshape h3] at h
  simp only [Option.some.injEq, LatencyResult.success.injEq] at h
  obtain ⟨hmed, havg, hmn, hmx⟩ := h
  have hlenv : (validQ (sampleLatencies outcomes tc)).length
      = (validLatencies (sampleLatencies outcomes tc)).length := by
    rw [validQ, List.length_map]
  set qs := validQ (sampleLatencies outcomes tc) with hqs
  set s := sortQ qs with hsdef
  have hslen : s.length = qs.length := sortQ_length qs
  have hqlen : 3 ≤ qs.length := by omega
  have hsorted : s.Sorted (fun a b => a ≤ b) := sortQ_sorted qs
  have hsne : s ≠ [] := by
    intro hnil
    rw [hnil] at hslen
    simp at hslen
    omega
  refine ⟨s.getD (qs.length / 2) 0, qs.sum / (qs.length : ℚ),
    s.getD 0 0, s.getD (qs.length - 1) 0,
    hmed.symm, havg.symm, hmn.symm, hmx.symm, ?_, ?_, ?_, ?_, rfl, rfl, rfl, rfl⟩
  · exact sorted_getD_le hsorted (Nat.zero_le _) (by omega)
  · exact sorted_getD_le hsorted (by omega) (by omega)
  · have hsum : qs.sum = s.sum := (sortQ_sum qs).symm
    have hlen2 : (qs.length : ℚ) = (s.length : ℚ) := by rw [hslen]
    rw [hsum, hlen2]
    refine le_sum_div_length hsne ?_
    intro x hx
    exact (sorted_bounds_of_mem hsorted hx).1
  · have hsum : qs.sum = s.sum := (sortQ_sum qs).symm
    have hlen2 : (qs.length : ℚ) = (s.length : ℚ) := by rw [hslen]
    rw [hsum, hlen2]
    refine sum_div_length_le hsne ?_
    intro x hx
    have := (sorted_bounds_of_mem hsorted hx).2
    rwa [hslen] at this

/-- C5 witness: the invariants at a concrete three-success run. -/
theorem c5_success_invariants_witness :
    ∃ m a lo hi : ℚ,
      Fl.num 20 = .num m ∧ Fl.num 20 = .num a ∧ Fl.num 10 = .num lo ∧
      Fl.num 30 = .num hi ∧
      lo ≤ m ∧ m ≤ hi ∧ lo ≤ a ∧ a ≤ hi ∧
      a = (validQ (sampleLatencies (outcomesOf [.success 10, .success 30, .success 20]) 3)).sum
            / ((validQ (sampleLatencies (outcomesOf [.success 10, .success 30, .success 20]) 3)).length : ℚ) ∧
      m = (sortQ (validQ (sampleLatencies (outcomesOf [.success 10, .success 30, .success 20]) 3))).getD
            ((validQ (sampleLatencies (outcomesOf [.success 10, .success 30, .success 20]) 3)).length / 2) 0 ∧
      lo = (sortQ (validQ (sampleLatencies (outcomesOf [.success 10, .success 30, .success 20]) 3))).getD 0 0 ∧
      hi = (sortQ (validQ (sampleLatencies (outcomesOf [.success 10, .success 30, .success 20]) 3))).getD
            ((validQ (sampleLatencies (outcomesOf [.success 10, .success 30, .success 20]) 3)).length - 1) 0 :=
  c5_success_invariants (outcomesOf [.success 10, .success 30, .success 20]) 3
    (.num 20) (.num 20) (.num 10) (.num 30)
    (by
      rw [show sampleLatencies (outcomesOf [.success 10, .success 30, .success 20]) 3
          = [10, 30, 20].map Fl.num by decide]
      rw [reduceLatency_success_eq ([10, 30, 20].map Fl.num) 3
        (map_num_shape _) (by decide)]
      norm_num [validQ, validLatencies, Fl.isInfinite, Fl.toQ, sortQ,
        List.insertionSort, List.orderedInsert])

/-! ## Claim C10 -/

/-- C10: when every entry of the attempt vector is a finite non-negative
duration or the infinity failure marker, the filter removes every infinite
marker, every comparison the sort comparator makes is defined (so
`partial_cmp(..).unwrap()` never observes NaN and never panics), the reduction
always produces a result, and all four statistics of a resulting `Success`
are finite. -/
theorem c10_filter_no_nan_no_panic (l : List Fl)
    (hwf : ∀ x ∈ l, (∃ q, 0 ≤ q ∧ x = Fl.num q) ∨ x = Fl.inf) :
    (∀ x ∈ validLatencies l, x.isFinite = true)
    ∧ (∀ x ∈ validLatencies l, ∀ y ∈ validLatencies l,
        (x.partialCmp y).isSome = true)
    ∧ (sortFl (validLatencies l)).isSome = true
    ∧ (∀ tc : ℕ, (reduceLatency l tc).isSome = true)
    ∧ (∀ tc : ℕ, ∀ med avg mn mx,
        reduceLatency l tc = some (.success med avg mn mx) →
        med.isFinite = true ∧ avg.isFinite = true ∧ mn.isFinite = true
          ∧ mx.isFinite = true) := by
  have hshape : ∀ x ∈ l, (∃ q, x = Fl.num q) ∨ x = Fl.inf := by
    intro x hx
    rcases hwf x hx with ⟨q, _, rfl⟩ | rfl
    · exact Or.inl ⟨q, rfl⟩
    · exact Or.inr rfl
  have hvshape := validLatencies_shape hshape
  have hvalid : validLatencies l = (validQ l).map Fl.num := by
    rw [validQ]; exact eq_map_toQ hvshape
  have hsort : sortFl (validLatencies l)
      = some ((sortQ (validQ l)).map Fl.num) := by
    rw [hvalid, sortFl_map_num]
  refine ⟨?_, ?_, ?_, ?_, ?_⟩
  · intro x hx
    obtain ⟨q, rfl⟩ := hvshape x hx
    rfl
  · intro x hx y hy
    obtain ⟨qx, rfl⟩ := hvshape x hx
    obtain ⟨qy, rfl⟩ := hvshape y hy
    simp [Fl.partialCmp]
  · rw [hsort]
    rfl
  · intro tc
    rw [reduceLatency]
    split
    · rfl
    · split
      · rfl
      · rw [hsort]
        rfl
  · intro tc med avg mn mx h
    have h3 := reduceLatency_success_inv h
    rw [reduceLatency_success_eq l tc hshape h3] at h
    simp only [Option.some.injEq, LatencyResult.success.injEq] at h
    obtain ⟨hmed, havg, hmn, hmx⟩ := h
    rw [← hmed, ← havg, ← hmn, ← hmx]
    exact ⟨rfl, rfl, rfl, rfl⟩

/-- C10 witness: the safety conclusions at a concrete mixed vector with one
failure marker between two finite samples. -/
theorem c10_filter_no_nan_no_panic_witness :
    (∀ x ∈ validLatencies [Fl.num 10, Fl.inf, Fl.num 20], x.isFinite = true)
    ∧ (∀ x ∈ validLatencies [Fl.num 10, Fl.inf, Fl.num 20],
        ∀ y ∈ validLatencies [Fl.num 10, Fl.inf, Fl.num 20],
        (x.partialCmp y).isSome = true)
    ∧ (sortFl (validLatencies [Fl.num 10, Fl.inf, Fl.num 20])).isSome = true
    ∧ (∀ tc : ℕ, (reduceLatency [Fl.num 10, Fl.inf, Fl.num 20] tc).isSome = true)
    ∧ (∀ tc : ℕ, ∀ med avg mn mx,
        reduceLatency [Fl.num 10, Fl.inf, Fl.num 20] tc
          = some (.success med avg mn mx) →
        med.isFinite = true ∧ avg.isFinite = true ∧ mn.isFinite = true
          ∧ mx.isFinite = true) :=
  c10_filter_no_nan_no_panic [Fl.num 10, Fl.inf, Fl.num 20]
    (by
      intro x hx
      fin_cases hx
      · exact Or.inl ⟨10, by norm_num, rfl⟩
      · exact Or.inr rfl
      · exact Or.inl ⟨20, by norm_num, rfl⟩)

/-! ## Shape lemmas for the ranking comparators -/

theorem hasSpeedSuccess_iff (n : NodeResult) :
    hasSpeedSuccess n = true ↔ ∃ s, n.speed = some (.success s) := by
  unfold hasSpeedSuccess
  rcases h : n.speed with _ | s
  · simp
  · rcases s with s | r <;> simp

theorem hasLatencySuccess_iff (n : NodeResult) :
    hasLatencySuccess n = true
      ↔ ∃ m a mn mx, n.latency = .success m a mn mx := by
  unfold hasLatencySuccess
  rcases h : n.latency with ⟨m, a, mn, mx⟩ | ⟨v, t⟩ | _ | r <;> simp

theorem speed_shape_of_not_success {n : NodeResult}
    (h : hasSpeedSuccess n = false) :
    n.speed = none ∨ ∃ r, n.speed = some (.failed r) := by
  unfold hasSpeedSuccess at h
  rcases hs : n.speed with _ | s
  · exact Or.inl rfl
  · rcases s with s | r
    · rw [hs] at h
      simp at h
    · exact Or.inr ⟨r, rfl⟩

theorem latency_shape_of_not_success {n : NodeResult}
    (h : hasLatencySuccess n = false) :
    (∃ v t, n.latency = .unstable v t) ∨ n.latency = .allFailed
      ∨ ∃ r, n.latency = .sessionError r := by
  unfold hasLatencySuccess at h
  rcases hs : n.latency with ⟨m, a, mn, mx⟩ | ⟨v, t⟩ | _ | r
  · rw [hs] at h
    simp at h
  · exact Or.inl ⟨v, t, rfl⟩
  · exact Or.inr (Or.inl rfl)
  · exact Or.inr (Or.inr ⟨r, rfl⟩)

theorem latencyCmp_lt_of_median_lt {a b : NodeResult} {ma mb : ℚ}
    {aa mna mxa ab mnb mxb : Fl}
    (hA : a.latency = .success (.num ma) aa mna mxa)
    (hB : b.latency = .success (.num mb) ab mnb mxb)
    (h : ma < mb) : latencyCmp a b = .lt := by
  simp [latencyCmp, hA, hB, Fl.partialCmp, h]

theorem latencyCmp_lt_of_success_not {a b : NodeResult}
    (ha : hasLatencySuccess a = true) (hb : hasLatencySuccess b = false) :
    latencyCmp a b = .lt := by
  obtain ⟨m, aa, mn, mx, hA⟩ := (hasLatencySuccess_iff a).mp ha
  rcases latency_shape_of_not_success hb with ⟨v, t, hB⟩ | hB | ⟨r, hB⟩ <;>
    simp [latencyCmp, hA, hB]

theorem latencyCmp_eq_of_neither {a b : NodeResult}
    (ha : hasLatencySuccess a = false) (hb : hasLatencySuccess b = false) :
    latencyCmp a b = .eq := by
  rcases latency_shape_of_not_success ha with ⟨v, t, hA⟩ | hA | ⟨r, hA⟩ <;>
    rcases latency_shape_of_not_success hb with ⟨v2, t2, hB⟩ | hB | ⟨r2, hB⟩ <;>
    simp [latencyCmp, hA, hB]

theorem speedCmp_eq_latencyCmp {a b : NodeResult}
    (ha : hasSpeedSuccess a = false) (hb : hasSpeedSuccess b = false) :
    speedCmp a b = latencyCmp a b := by
  rcases speed_shape_of_not_success ha with hA | ⟨ra, hA⟩ <;>
    rcases speed_shape_of_not_success hb with hB | ⟨rb, hB⟩ <;>
    simp [speedCmp, hA, hB]

/-! ## Claim C6 -/

/-- C6: with throughput testing enabled, the ranking comparator puts any node
with a successful throughput before any node without one (regardless of
latency), orders successful-throughput nodes by descending rate, and among
nodes without successful throughput puts `Success` latency first, orders
those by ascending median, and makes every remaining pair compare equal. -/
theorem c6_ranking_with_throughput (a b : NodeResult) :
    (hasSpeedSuccess a = true → hasSpeedSuccess b = false → speedCmp a b = .lt)
    ∧ (∀ sa sb : ℚ, a.speed = some (.success (.num sa)) →
        b.speed = some (.success (.num sb)) → sb < sa → speedCmp a b = .lt)
    ∧ (hasSpeedSuccess a = false → hasSpeedSuccess b = false →
        ((hasLatencySuccess a = true → hasLatencySuccess b = false →
            speedCmp a b = .lt)
          ∧ (∀ (ma mb : ℚ) (aa mna mxa ab mnb mxb : Fl),
              a.latency = .success (.num ma) aa mna mxa →
              b.latency = .success (.num mb) ab mnb mxb →
              ma < mb → speedCmp a b = .lt)
          ∧ (hasLatencySuccess a = false → hasLatencySuccess b = false →
              speedCmp a b = .eq))) := by
  refine ⟨?_, ?_, ?_⟩
  · intro ha hb
    obtain ⟨sa, hA⟩ := (hasSpeedSuccess_iff a).mp ha
    rcases speed_shape_of_not_success hb with hB | ⟨rb, hB⟩ <;>
      simp [speedCmp, hA, hB]
  · intro sa sb hA hB hlt
    have hcmp : Fl.partialCmp (.num sb) (.num sa) = some .lt := by
      simp [Fl.partialCmp, hlt]
    simp [speedCmp, hA, hB, hcmp]
  · intro ha hb
    rw [speedCmp_eq_latencyCmp ha hb]
    refine ⟨?_, ?_, ?_⟩
    · exact fun hla hlb => latencyCmp_lt_of_success_not hla hlb
    · intro ma mb aa mna mxa ab mnb mxb hA hB hlt
      exact latencyCmp_lt_of_median_lt hA hB hlt
    · exact fun hla hlb => latencyCmp_eq_of_neither hla hlb

/-- C6 witness: `Success(50)` throughput sorts before `Success(10)` even
though the faster node has no usable latency and the slower one a perfect
latency. -/
theorem c6_ranking_with_throughput_witness :
    speedCmp
      { tag := "fast", port := 1, latency := .allFailed,
        speed := some (.success (.num 50)) }
      { tag := "slow", port := 2,
        latency := .success (.num 1) (.num 1) (.num 1) (.num 1),
        speed := some (.success (.num 10)) } = .lt :=
  (c6_ranking_with_throughput
    { tag := "fast", port := 1, latency := .allFailed,
      speed := some (.success (.num 50)) }
    { tag := "slow", port := 2,
      latency := .success (.num 1) (.num 1) (.num 1) (.num 1),
      speed := some (.success (.num 10)) }).2.1 50 10 rfl rfl (by norm_num)

/-! ## Claim C7 -/

/-- C7: with throughput testing disabled, the comparator orders nodes by
ascending latency median, with every `Success` latency before every
non-`Success` one, all pairs of non-`Success` latencies equal, and any
numerically incomparable median comparison (NaN) treated as equal rather than
panicking. -/
theorem c7_ranking_latency_only (a b : NodeResult) :
    (∀ (ma mb : ℚ) (aa mna mxa ab mnb mxb : Fl),
        a.latency = .success (.num ma) aa mna mxa →
        b.latency = .success (.num mb) ab mnb mxb →
        ma < mb → latencyCmp a b = .lt)
    ∧ (hasLatencySuccess a = true → hasLatencySuccess b = false →
        latencyCmp a b = .lt)
    ∧ (hasLatencySuccess a = false → hasLatencySuccess b = false →
        latencyCmp a b = .eq)
    ∧ (∀ (aa mna mxa mb ab mnb mxb : Fl),
        a.latency = .success .nan aa mna mxa →
        b.latency = .success mb ab mnb mxb →
        latencyCmp a b = .eq)
    ∧ (∀ (ma aa mna mxa ab mnb mxb : Fl),
        a.latency = .success ma aa mna mxa →
        b.latency = .success .nan ab mnb mxb →
        latencyCmp a b = .eq) := by
  refine ⟨?_, ?_, ?_, ?_, ?_⟩
  · intro ma mb aa mna mxa ab mnb mxb hA hB hlt
    exact latencyCmp_lt_of_median_lt hA hB hlt
  · exact fun ha hb => latencyCmp_lt_of_success_not ha hb
  · exact fun ha hb => latencyCmp_eq_of_neither ha hb
  · intro aa mna mxa mb ab mnb mxb hA hB
    simp [latencyCmp, hA, hB, Fl.partialCmp]
  · intro ma aa mna mxa ab mnb mxb hA hB
    rcases ma with q | _ | _ <;> simp [latencyCmp, hA, hB, Fl.partialCmp]

/-- C7 witness: median 15 sorts before median 40, which sorts before
`AllFailed`. -/
theorem c7_ranking_latency_only_witness :
    latencyCmp
      { tag := "a", port := 1,
        latency := .success (.num 15) (.num 15) (.num 15) (.num 15),
        speed := none }
      { tag := "b", port := 2,
        latency := .success (.num 40) (.num 40) (.num 40) (.num 40),
        speed := none } = .lt
    ∧ latencyCmp
      { tag := "b", port := 2,
        latency := .success (.num 40) (.num 40) (.num 40) (.num 40),
        speed := none }
      { tag := "c", port := 3, latency := .allFailed, speed := none } = .lt :=
  ⟨(c7_ranking_latency_only
      { tag := "a", port := 1,
        latency := .success (.num 15) (.num 15) (.num 15) (.num 15),
        speed := none }
      { tag := "b", port := 2,
        latency := .success (.num 40) (.num 40) (.num 40) (.num 40),
        speed := none }).1 15 40 (.num 15) (.num 15) (.num 15) (.num 40)
        (.num 40) (.num 40) rfl rfl (by norm_num),
    (c7_ranking_latency_only
      { tag := "b", port := 2,
        latency := .success (.num 40) (.num 40) (.num 40) (.num 40),
        speed := none }
      { tag := "c", port := 3, latency := .allFailed, speed := none }).2.1
        rfl rfl⟩

/-! ## Claim C3 -/

/-- C3 (amended): when throughput testing is enabled, the evaluator attempts
the throughput probe for every node — including a node whose latency probe
returned `SessionError`; its speed field is whatever the probe produced — and
evaluation of the remaining nodes continues (one result per node). -/
theorem c3_speed_probe_runs_despite_session_error
    (latencyOf : ℕ → LatencyResult) (speedOf : ℕ → SpeedResult)
    (size : ℕ) (tag : String) (port : ℕ) (reason : String)
    (h : latencyOf port = .sessionError reason)
    (nodes : List (String × ℕ)) :
    (evaluateNode latencyOf speedOf (some size) tag port).speedProbeAttempted
      = true
    ∧ (evaluateNode latencyOf speedOf (some size) tag port).result.speed
      = some (speedOf port)
    ∧ (evaluateNode latencyOf speedOf (some size) tag port).result.latency
      = .sessionError reason
    ∧ (evaluateAll latencyOf speedOf (some size) nodes).length
      = nodes.length := by
  refine ⟨rfl, rfl, ?_, ?_⟩
  · simp [evaluateNode, h]
  · simp [evaluateAll]

/-- C3 witness: the amended behaviour at a concrete session-error node. -/
theorem c3_speed_probe_runs_despite_session_error_witness :
    (evaluateNode (fun _ => .sessionError "Failed to create proxy: bad")
      (fun _ => .failed "Timeout") (some 100) "node" 1080).speedProbeAttempted
      = true
    ∧ (evaluateNode (fun _ => .sessionError "Failed to create proxy: bad")
      (fun _ => .failed "Timeout") (some 100) "node" 1080).result.speed
      = some ((fun _ : ℕ => SpeedResult.failed "Timeout") 1080)
    ∧ (evaluateNode (fun _ => .sessionError "Failed to create proxy: bad")
      (fun _ => .failed "Timeout") (some 100) "node" 1080).result.latency
      = .sessionError "Failed to create proxy: bad"
    ∧ (evaluateAll (fun _ => .sessionError "Failed to create proxy: bad")
      (fun _ => .failed "Timeout") (some 100) [("node", 1080), ("other", 1081)]).length
      = [("node", 1080), ("other", 1081)].length :=
  c3_speed_probe_runs_despite_session_error
    (fun _ => .sessionError "Failed to create proxy: bad")
    (fun _ => .failed "Timeout") 100 "node" 1080
    "Failed to create proxy: bad" rfl [("node", 1080), ("other", 1081)]

/-- C3 counterexample: a node whose latency probe yields `SessionError` still
gets the throughput probe when throughput testing is enabled — the evaluator
runs `test_node_speed` and stores its (network-produced) result, contradicting
the claim that no throughput probe is attempted for such a node. -/
theorem c3_counterexample :
    (evaluateNode (fun _ => .sessionError "Failed to create proxy: bad")
      (fun _ => .success (.num 50)) (some 100) "node" 1080).speedProbeAttempted
      = true
    ∧ (evaluateNode (fun _ => .sessionError "Failed to create proxy: bad")
      (fun _ => .success (.num 50)) (some 100) "node" 1080).result.speed
      = some (.success (.num 50)) :=
  ⟨rfl, rfl⟩

/-! ## Claim C8 -/

/-- C8: a requested size above 1024 MB is rejected as "size too large" with
no network call; a size of at most 1024 MB issues exactly one request whose
URL asks for exactly `size * 1024 * 1024` bytes (no `u32` overflow occurs in
that range). Stated for a session whose proxy/client construction succeeds. -/
theorem c8_size_guard (net : ℕ → TransferOutcome) (size : ℕ) :
    (1024 < size →
      test_node_speed .ok net size
        = { result := .failed "Size too large (>1GB not supported)",
            networkCalled := false, requestBytes := none })
    ∧ (size ≤ 1024 →
        (test_node_speed .ok net size).requestBytes
          = some (size * 1024 * 1024)
        ∧ (test_node_speed .ok net size).networkCalled = true
        ∧ (test_node_speed .ok net size).result
          = reduceTransfer (net (size * 1024 * 1024))) := by
  constructor
  · intro h
    rw [test_node_speed, if_neg (by omega)]
  · intro h
    have hlt : size * 1024 * 1024 < 2 ^ 32 := by
      calc size * 1024 * 1024 ≤ 1024 * 1024 * 1024 :=
            Nat.mul_le_mul_right _ (Nat.mul_le_mul_right _ h)
        _ < 2 ^ 32 := by norm_num
    have hmod : size * 1024 * 1024 % 2 ^ 32 = size * 1024 * 1024 :=
      Nat.mod_eq_of_lt hlt
    rw [test_node_speed, if_pos h]
    refine ⟨?_, rfl, ?_⟩
    · show some (size * 1024 * 1024 % 2 ^ 32) = some (size * 1024 * 1024)
      rw [hmod]
    · show reduceTransfer (net (size * 1024 * 1024 % 2 ^ 32))
        = reduceTransfer (net (size * 1024 * 1024))
      rw [hmod]

/-- C8 witness: `size = 2000` is rejected without a network call, and
`size = 10` requests exactly `10 * 1024 * 1024` bytes. -/
theorem c8_size_guard_witness :
    test_node_speed .ok (fun _ => .timeout) 2000
      = { result := .failed "Size too large (>1GB not supported)",
          networkCalled := false, requestBytes := none }
    ∧ (test_node_speed .ok (fun _ => .timeout) 10).requestBytes
      = some (10 * 1024 * 1024) :=
  ⟨(c8_size_guard (fun _ => .timeout) 2000).1 (by norm_num),
    ((c8_size_guard (fun _ => .timeout) 10).2 (by norm_num)).1⟩

/-! ## Claim C9 -/

/-- C9: a completed transfer reports exactly
`(bytes * 8) / 1_000_000 / elapsed_seconds` Mbps (decimal megabits);
10,485,760 bytes in 2.0 seconds give 41.94304 Mbps; the rate is monotone in
the byte count and antitone in the elapsed time. -/
theorem c9_rate_formula (bytes b1 b2 : ℕ) (t t1 t2 : ℚ) (ht1 : 0 < t1) :
    reduceTransfer (.success bytes t)
      = .success (.num (((bytes : ℚ) * 8) / 1000000 / t))
    ∧ computeRate 10485760 2 = 41.94304
    ∧ (b1 ≤ b2 → computeRate b1 t1 ≤ computeRate b2 t1)
    ∧ (t1 ≤ t2 → computeRate bytes t2 ≤ computeRate bytes t1) := by
  refine ⟨rfl, by norm_num [computeRate], ?_, ?_⟩
  · intro hb
    unfold computeRate
    gcongr
  · intro ht
    unfold computeRate
    gcongr

/-- C9 witness: the formula conclusions at `10,485,760` bytes, 2 seconds. -/
theorem c9_rate_formula_witness :
    reduceTransfer (.success 10485760 2)
      = .success (.num (((10485760 : ℕ) * 8 : ℚ) / 1000000 / 2))
    ∧ computeRate 10485760 2 = 41.94304
    ∧ ((5242880 : ℕ) ≤ 10485760 → computeRate 5242880 2 ≤ computeRate 10485760 2)
    ∧ ((2 : ℚ) ≤ 4 → computeRate 10485760 4 ≤ computeRate 10485760 2) :=
  c9_rate_formula 10485760 5242880 10485760 2 2 4 (by norm_num)
